import Mathlib

/- Shallow embedding of the mqm multi-queue dispatcher (mqm.h):
   MqmSource (per-key queue), MqmSink (broadcaster), the MqmActiveSink
   worker loop, and MqmProcessor (registry).  Mutation is modelled by
   explicit state passing; a C++ throw is an Except.error paired with the
   state at throw time; the condition-variable wait inside MqmSource::get
   is modelled by returning none exactly when the wait condition (empty
   buffer and not stopped) holds. -/

namespace MqmSpec

/-- Queue for one key: the `values_` buffer plus the `stopped_` flag
    (class MqmSource in mqm.h). -/
structure MqmSource (V : Type) where
  values_ : List V
  stopped_ : Bool
deriving DecidableEq

variable {K V C E : Type}

/-- MqmSource::enqueue: throws "Can't enqueue, queue is stopped" when the
    queue is stopped (leaving the state untouched), otherwise appends `v`
    at the back of the buffer and notifies the waiting drainer. -/
def MqmSource.enqueue (s : MqmSource V) (v : V) : Except String Unit × MqmSource V :=
  if s.stopped_ then (Except.error "Can't enqueue, queue is stopped", s)
  else (Except.ok (), { s with values_ := s.values_ ++ [v] })

/-- MqmSource::stop: idempotently set the stopped flag (and wake the
    drainer, which the blocking model of `get` makes implicit). -/
def MqmSource.stop (s : MqmSource V) : MqmSource V :=
  { s with stopped_ := true }

/-- MqmSource::get: `none` models the blocked condition-variable wait
    (buffer empty and not stopped); otherwise the entire buffer is swapped
    out to the caller and the stopped flag is reported. -/
def MqmSource.get (s : MqmSource V) : Option (List V × Bool × MqmSource V) :=
  if s.values_.isEmpty && !s.stopped_ then none
  else some (s.values_, s.stopped_, { s with values_ := [] })

/-- Broadcaster for one key (class MqmSink): the key plus the consumer
    handles in subscription order. -/
structure MqmSink (K C : Type) where
  key_ : K
  consumers_ : List C
deriving DecidableEq

/-- MqmSink::subscribe: append the consumer to the list. -/
def MqmSink.subscribe (sink : MqmSink K C) (c : C) : MqmSink K C :=
  { sink with consumers_ := sink.consumers_ ++ [c] }

/-- Inner loop of MqmSink::consume for one consumer `c`: one invocation per
    value of the batch, in batch order.  `behave c key v = some e` models
    the invocation throwing `e`; the catch records it and the loop goes on,
    so the error never propagates. -/
def consumeVals (behave : C → K → V → Option E) (c : C) (key : K) :
    List V → List (C × V) × List E
  | [] => ([], [])
  | v :: vs =>
    let rest := consumeVals behave c key vs
    match behave c key v with
    | none => ((c, v) :: rest.1, rest.2)
    | some e => ((c, v) :: rest.1, e :: rest.2)

/-- Outer loop of MqmSink::consume over the consumers, in subscription
    order. -/
def consumeLoop (behave : C → K → V → Option E) (key : K) (values : List V) :
    List C → List (C × V) × List E
  | [] => ([], [])
  | c :: cs =>
    let here := consumeVals behave c key values
    let rest := consumeLoop behave key values cs
    (here.1 ++ rest.1, here.2 ++ rest.2)

/-- MqmSink::consume: for each consumer, for each value of the batch,
    invoke the consumer; a throw from one invocation is caught there.
    Returns the invocation trace and the reported (caught) errors. -/
def MqmSink.consume (sink : MqmSink K C) (behave : C → K → V → Option E)
    (values : List V) : List (C × V) × List E :=
  consumeLoop behave sink.key_ values sink.consumers_

/-- The consumer-major invocation trace: every consumer, in subscription
    order, paired with every value of the batch, in batch order. -/
def sinkTrace (sink : MqmSink K C) (values : List V) : List (C × V) :=
  sink.consumers_.flatMap (fun c => values.map (fun v => (c, v)))

lemma consumeVals_fst (behave : C → K → V → Option E) (c : C) (key : K) :
    ∀ vs : List V, (consumeVals behave c key vs).1 = vs.map (fun v => (c, v)) := by
  intro vs
  induction vs with
  | nil => rfl
  | cons v vs ih =>
    simp only [consumeVals]
    cases behave c key v <;> simp [ih]

lemma consumeVals_snd (behave : C → K → V → Option E) (c : C) (key : K) :
    ∀ vs : List V, (consumeVals behave c key vs).2
      = vs.filterMap (fun v => behave c key v) := by
  intro vs
  induction vs with
  | nil => rfl
  | cons v vs ih =>
    simp only [consumeVals, List.filterMap_cons]
    cases behave c key v <;> simp [ih]

lemma consumeLoop_fst (behave : C → K → V → Option E) (key : K) (values : List V) :
    ∀ cs : List C, (consumeLoop behave key values cs).1
      = cs.flatMap (fun c => values.map (fun v => (c, v))) := by
  intro cs
  induction cs with
  | nil => rfl
  | cons c cs ih =>
    simp [consumeLoop, consumeVals_fst, ih]

lemma consumeLoop_snd (behave : C → K → V → Option E) (key : K) (values : List V) :
    ∀ cs : List C, (consumeLoop behave key values cs).2
      = cs.flatMap (fun c => values.filterMap (fun v => behave c key v)) := by
  intro cs
  induction cs with
  | nil => rfl
  | cons c cs ih =>
    simp [consumeLoop, consumeVals_snd, ih]

lemma consume_fst (sink : MqmSink K C) (behave : C → K → V → Option E)
    (values : List V) :
    (sink.consume behave values).1 = sinkTrace sink values := by
  unfold MqmSink.consume sinkTrace
  exact consumeLoop_fst behave sink.key_ values sink.consumers_

lemma consume_snd (sink : MqmSink K C) (behave : C → K → V → Option E)
    (values : List V) :
    (sink.consume behave values).2
      = sink.consumers_.flatMap (fun c => values.filterMap (fun v => behave c sink.key_ v)) := by
  unfold MqmSink.consume
  exact consumeLoop_snd behave sink.key_ values sink.consumers_

lemma sinkTrace_length (sink : MqmSink K C) (values : List V) :
    (sinkTrace sink values).length = sink.consumers_.length * values.length := by
  unfold sinkTrace
  induction sink.consumers_ with
  | nil => simp
  | cons c cs ih =>
    simp only [List.flatMap_cons, List.length_append, List.length_map, ih,
      List.length_cons]
    ring

lemma bind_map_getElem? (vs : List V) :
    ∀ (cs : List C) (i j : Nat) (c : C) (v : V),
      cs[i]? = some c → vs[j]? = some v →
      (cs.flatMap (fun c2 => vs.map (fun v2 => (c2, v2))))[i * vs.length + j]?
        = some (c, v) := by
  intro cs
  induction cs with
  | nil => intro i j c v hi _; simp at hi
  | cons c0 cs ih =>
    intro i j c v hi hj
    have hjlen : j < vs.length := by
      by_contra hle
      rw [List.getElem?_eq_none (Nat.le_of_not_lt hle)] at hj
      exact Option.noConfusion hj
    cases i with
    | zero =>
      simp only [List.getElem?_cons_zero, Option.some.injEq] at hi
      simp only [List.flatMap_cons, Nat.zero_mul, Nat.zero_add]
      rw [List.getElem?_append_left (by simpa using hjlen), List.getElem?_map, hj]
      simp [hi]
    | succ i =>
      simp only [List.getElem?_cons_succ] at hi
      simp only [List.flatMap_cons]
      have hlen : (vs.map (fun v2 => (c0, v2))).length = vs.length := by simp
      have hge : (vs.map (fun v2 => (c0, v2))).length ≤ (i + 1) * vs.length + j := by
        rw [hlen, Nat.succ_mul]
        omega
      rw [List.getElem?_append_right hge]
      have harith : (i + 1) * vs.length + j - (vs.map (fun v2 => (c0, v2))).length
          = i * vs.length + j := by
        rw [hlen, Nat.succ_mul]
        omega
      rw [harith]
      exact ih i j c v hi hj

/-- C4: MqmSource::get returns (does not block) only when the buffer is
    non-empty or the queue is stopped; the batch it returns is the whole
    buffer in buffer order, the buffer is left empty, and the returned flag
    is the queue's stopped flag. -/
theorem mqm_C4_get_drains_all (s : MqmSource V) (batch : List V) (flag : Bool)
    (s2 : MqmSource V) (h : s.get = some (batch, flag, s2)) :
    (s.values_ ≠ [] ∨ s.stopped_ = true) ∧ batch = s.values_ ∧
      flag = s.stopped_ ∧ s2 = { s with values_ := [] } := by
  unfold MqmSource.get at h
  by_cases hblock : s.values_.isEmpty && !s.stopped_
  · rw [if_pos hblock] at h
    exact Option.noConfusion h
  · rw [if_neg hblock] at h
    injection h with h
    obtain ⟨h1, h23⟩ := Prod.mk.inj h
    obtain ⟨h2, h3⟩ := Prod.mk.inj h23
    refine ⟨?_, h1.symm, h2.symm, h3.symm⟩
    by_cases hv : s.values_ = []
    · right
      simp [hv] at hblock
      exact hblock
    · left; exact hv

/-- Witness for C4 at a concrete queue. -/
theorem mqm_C4_get_drains_all_witness :
    (([1, 2] : List Nat) ≠ [] ∨ false = true) ∧ ([1, 2] : List Nat) = [1, 2] ∧
      false = false ∧ (MqmSource.mk ([] : List Nat) false) = MqmSource.mk [] false :=
  mqm_C4_get_drains_all (MqmSource.mk [1, 2] false) [1, 2] false
    (MqmSource.mk [] false) rfl

/-- C5: MqmSource::enqueue fails exactly when the queue is stopped;
    otherwise it appends `v` at the end of the buffer, preserves the flag,
    and leaves the queue drainable (the woken drainer's `get` no longer
    blocks). -/
theorem mqm_C5_enqueue_append ( s : MqmSource V) (v : V) :
    (((s.enqueue v).1.isOk = false) ↔ s.stopped_ = true) ∧
      (s.enqueue v).2.values_ = cond s.stopped_ s.values_ (s.values_ ++ [v]) ∧
      (s.enqueue v).2.stopped_ = s.stopped_ ∧
      (((s.enqueue v).2.get.isSome || s.stopped_) = true) := by
  cases hs : s.stopped_ with
  | false =>
    refine ⟨?_, ?_, ?_, ?_⟩ <;>
      simp [MqmSource.enqueue, hs, Except.isOk, Except.toBool, MqmSource.get]
  | true =>
    refine ⟨?_, ?_, ?_, ?_⟩ <;>
      simp [MqmSource.enqueue, hs, Except.isOk, Except.toBool]

/-- Witness for C5 at a concrete queue and value. -/
theorem mqm_C5_enqueue_append_witness :
    ((((MqmSource.mk ([1] : List Nat) false).enqueue 2).1.isOk = false) ↔
        (MqmSource.mk ([1] : List Nat) false).stopped_ = true) ∧
      ((MqmSource.mk ([1] : List Nat) false).enqueue 2).2.values_
        = cond false [1] ([1] ++ [2]) ∧
      ((MqmSource.mk ([1] : List Nat) false).enqueue 2).2.stopped_ = false ∧
      ((((MqmSource.mk ([1] : List Nat) false).enqueue 2).2.get.isSome || false) = true) :=
  mqm_C5_enqueue_append (MqmSource.mk [1] false) 2

/-- C10: a push against an already-stopped queue raises Stopped and leaves
    the queue (buffer and flag) exactly as it was. -/
theorem mqm_C10_enqueue_stopped_unchanged (s : MqmSource V) (v : V)
    (h : s.stopped_ = true) :
    s.enqueue v = (Except.error "Can't enqueue, queue is stopped", s) := by
  unfold MqmSource.enqueue
  rw [if_pos h]

/-- Witness for C10 at a concrete stopped queue. -/
theorem mqm_C10_enqueue_stopped_unchanged_witness :
    (MqmSource.mk ([4] : List Nat) true).enqueue 7
      = (Except.error "Can't enqueue, queue is stopped", MqmSource.mk [4] true) :=
  mqm_C10_enqueue_stopped_unchanged (MqmSource.mk [4] true) 7 rfl

/-- C6: MqmSink::consume invokes each subscription-entry exactly once per
    batch value: the invocation trace is exactly every consumer, taken in
    subscription order, paired with every value, in batch order (so the
    invocation of consumer index `i` on value index `j` sits at position
    `i * batch-length + j`, and an earlier-subscribed consumer receives each
    value before any later-subscribed consumer receives that value). -/
theorem mqm_C6_dispatch_order (sink : MqmSink K C) (behave : C → K → V → Option E)
    (values : List V) (i j : Nat) (c : C) (v : V)
    (hi : sink.consumers_[i]? = some c) (hj : values[j]? = some v) :
    (sink.consume behave values).1 = sinkTrace sink values ∧
      (sink.consume behave values).1.length
        = sink.consumers_.length * values.length ∧
      (sink.consume behave values).1[i * values.length + j]? = some (c, v) := by
  refine ⟨consume_fst sink behave values, ?_, ?_⟩
  · rw [consume_fst sink behave values]
    exact sinkTrace_length sink values
  · rw [consume_fst sink behave values]
    exact bind_map_getElem? values sink.consumers_ i j c v hi hj

/-- Witness for C6: two consumers, three values; the invocation of the
    second consumer on the first value sits at position 1*3+0 = 3. -/
theorem mqm_C6_dispatch_order_witness :
    ((MqmSink.mk (0 : Nat) [7, 8]).consume
        (fun _ _ _ => (none : Option Nat)) ([1, 2, 3] : List Nat)).1
      = sinkTrace (MqmSink.mk 0 [7, 8]) [1, 2, 3] ∧
    ((MqmSink.mk (0 : Nat) [7, 8]).consume
        (fun _ _ _ => (none : Option Nat)) ([1, 2, 3] : List Nat)).1.length = 2 * 3 ∧
    ((MqmSink.mk (0 : Nat) [7, 8]).consume
        (fun _ _ _ => (none : Option Nat)) ([1, 2, 3] : List Nat)).1[1 * 3 + 0]?
      = some (8, 1) :=
  mqm_C6_dispatch_order (MqmSink.mk 0 [7, 8]) (fun _ _ _ => none) [1, 2, 3]
    1 0 8 1 rfl rfl

/-- C7: when one consumer invocation inside MqmSink::consume throws, the
    error is caught and recorded at the broadcaster, every other
    (consumer, value) pair is still invoked — the invocation trace is the
    full consumer-major trace regardless of which invocations throw — and
    consume itself returns normally, so nothing propagates to the worker
    loop or the producer side. -/
theorem mqm_C7_consumer_error_contained (sink : MqmSink K C)
    (behave : C → K → V → Option E) (values : List V) (c : C) (v : V) (e : E)
    (hc : c ∈ sink.consumers_) (hv : v ∈ values)
    (he : behave c sink.key_ v = some e) :
    (sink.consume behave values).1 = sinkTrace sink values ∧
      e ∈ (sink.consume behave values).2 := by
  refine ⟨consume_fst sink behave values, ?_⟩
  rw [consume_snd sink behave values]
  rw [List.mem_flatMap]
  exact ⟨c, hc, List.mem_filterMap.mpr ⟨v, hv, he⟩⟩

/-- Witness for C7: consumer 5 throws 42 on value 2; the trace is still
    full and the error is reported. -/
theorem mqm_C7_consumer_error_contained_witness :
    ((MqmSink.mk (0 : Nat) [5, 6]).consume
        (fun c _ v => if c = 5 ∧ v = 2 then some 42 else (none : Option Nat))
        ([1, 2] : List Nat)).1
      = sinkTrace (MqmSink.mk 0 [5, 6]) [1, 2] ∧
    (42 : Nat) ∈ ((MqmSink.mk (0 : Nat) [5, 6]).consume
        (fun c _ v => if c = 5 ∧ v = 2 then some 42 else (none : Option Nat))
        ([1, 2] : List Nat)).2 :=
  mqm_C7_consumer_error_contained (MqmSink.mk 0 [5, 6])
    (fun c _ v => if c = 5 ∧ v = 2 then some 42 else none) [1, 2] 5 2 42
    (by decide) (by decide) (by decide)

/-- One iteration of the MqmActiveSink worker loop, under resolvable weak
    references (both `sourceWeak.lock()` and `sinkWeak.lock()` succeed):
    drain the queue (none models the blocked wait inside get), broadcast
    the drained batch, and report whether the loop exits (`stopped`). -/
def mqmWorkerIter (behave : C → K → V → Option E) (src : MqmSource V)
    (sink : MqmSink K C) :
    Option ((List (C × V) × List E) × MqmSource V × Bool) :=
  match src.get with
  | none => none
  | some (batch, stopped, src2) =>
    some (sink.consume behave batch, src2, stopped)

/-- C2: a queue that is stopped while still holding buffered values does
    not block the worker: the iteration performs one final drain of the
    whole buffer, broadcasts it (every buffered value reaches every
    consumer of the sink), leaves the buffer empty, and only then reports
    stopped = true, which makes the worker loop exit. -/
theorem mqm_C2_final_drain (behave : C → K → V → Option E) (src : MqmSource V)
    (sink : MqmSink K C) (h : src.stopped_ = true) :
    mqmWorkerIter behave src sink
      = some (sink.consume behave src.values_, { src with values_ := [] }, true) ∧
      ∀ v ∈ src.values_, ∀ c ∈ sink.consumers_,
        (c, v) ∈ (sink.consume behave src.values_).1 := by
  constructor
  · unfold mqmWorkerIter MqmSource.get
    rw [h]
    simp
  · intro v hv c hc
    rw [consume_fst sink behave src.values_]
    unfold sinkTrace
    rw [List.mem_flatMap]
    exact ⟨c, hc, List.mem_map.mpr ⟨v, hv, rfl⟩⟩

/-- Witness for C2: a stopped queue holding [1, 2] is drained in one final
    iteration and broadcast to consumer 5, and the iteration exits. -/
theorem mqm_C2_final_drain_witness :
    mqmWorkerIter (fun _ _ _ => (none : Option Nat))
        (MqmSource.mk ([1, 2] : List Nat) true) (MqmSink.mk (0 : Nat) [5])
      = some ((MqmSink.mk (0 : Nat) [5]).consume (fun _ _ _ => (none : Option Nat))
          [1, 2], MqmSource.mk [] true, true) :=
  (mqm_C2_final_drain (fun _ _ _ => none) (MqmSource.mk [1, 2] true)
    (MqmSink.mk 0 [5]) rfl).1

/-- One producer/worker interleaving step on a single key's pipeline:
    either a producer enqueue or a worker drain-and-broadcast. -/
inductive PipeOp (V : Type) where
  | enq (v : V)
  | drain
deriving DecidableEq

/-- Pipeline state for one key: the queue plus what each consumer has
    received so far (in order of receipt). -/
structure PipeState (V C : Type) where
  src : MqmSource V
  received : C → List V

/-- Apply one pipeline step: `enq` is MqmSource::enqueue (dropping the
    producer-visible result), `drain` is one worker iteration — if get
    would block, nothing happens; otherwise the whole batch is appended to
    the receipt list of every consumer of the sink, in order. -/
def pipeStep [DecidableEq C] (sink : MqmSink K C) (st : PipeState V C) :
    PipeOp V → PipeState V C
  | .enq v => { st with src := (st.src.enqueue v).2 }
  | .drain =>
    match st.src.get with
    | none => st
    | some (batch, _, src2) =>
      { src := src2,
        received := fun c =>
          if c ∈ sink.consumers_ then st.received c ++ batch else st.received c }

/-- Run a list of pipeline steps. -/
def pipeRun [DecidableEq C] (sink : MqmSink K C) (st : PipeState V C) :
    List (PipeOp V) → PipeState V C
  | [] => st
  | op :: ops => pipeRun sink (pipeStep sink st op) ops

/-- The payloads enqueued by a step list, in enqueue order. -/
def enqList : List (PipeOp V) → List V
  | [] => []
  | .enq v :: ops => v :: enqList ops
  | .drain :: ops => enqList ops

/-- Fresh single-key pipeline: empty, unstopped queue; nothing received. -/
def pipeInit : PipeState V C :=
  { src := MqmSource.mk [] false, received := fun _ => [] }

lemma pipeRun_invariant [DecidableEq C] (sink : MqmSink K C) :
    ∀ (ops : List (PipeOp V)) (st : PipeState V C),
      st.src.stopped_ = false →
      (pipeRun sink st ops).src.stopped_ = false ∧
      ∀ c ∈ sink.consumers_,
        (pipeRun sink st ops).received c ++ (pipeRun sink st ops).src.values_
          = st.received c ++ st.src.values_ ++ enqList ops := by
  intro ops
  induction ops with
  | nil => intro st hst; exact ⟨hst, fun c _ => by simp [pipeRun, enqList]⟩
  | cons op ops ih =>
    intro st hst
    cases op with
    | enq v =>
      have hstep : pipeStep sink st (.enq v)
          = { st with src := MqmSource.mk (st.src.values_ ++ [v]) false } := by
        simp [pipeStep, MqmSource.enqueue, hst]
      rw [pipeRun, hstep]
      obtain ⟨h1, h2⟩ := ih { st with src := MqmSource.mk (st.src.values_ ++ [v]) false } rfl
      refine ⟨h1, fun c hc => ?_⟩
      rw [h2 c hc]
      simp [enqList, List.append_assoc]
    | drain =>
      rw [pipeRun]
      rcases hget : st.src.get with _ | ⟨batch, flag, src2⟩
      · have hstep : pipeStep sink st .drain = st := by
          simp [pipeStep, hget]
        rw [hstep]
        obtain ⟨h1, h2⟩ := ih st hst
        exact ⟨h1, fun c hc => by rw [h2 c hc]; simp [enqList]⟩
      · obtain ⟨_, hbatch, _, hsrc2⟩ :=
          mqm_C4_get_drains_all st.src batch flag src2 hget
        have hstep : pipeStep sink st .drain
            = { src := src2,
                received := fun c =>
                  if c ∈ sink.consumers_ then st.received c ++ batch
                  else st.received c } := by
          simp [pipeStep, hget]
        rw [hstep]
        have hstop2 : src2.stopped_ = false := by rw [hsrc2]; exact hst
        obtain ⟨h1, h2⟩ := ih ⟨src2, fun c => if c ∈ sink.consumers_ then st.received c ++ batch else st.received c⟩ hstop2
        refine ⟨h1, fun c hc => ?_⟩
        rw [h2 c hc]
        simp only [if_pos hc, hbatch, hsrc2]
        simp [enqList, List.append_assoc]

/-- C3: for every interleaving of enqueues and worker drains on one key's
    pipeline (started fresh, never stopped), every subscribed consumer's
    receipt list plus the residual buffer is exactly the enqueued payloads
    in enqueue order; in particular once the worker has drained every
    pending batch (empty buffer), each consumer has received exactly the
    enqueued payloads, in order, with no loss and no duplication. -/
theorem mqm_C3_fifo_no_loss [DecidableEq C] (sink : MqmSink K C)
    (ops : List (PipeOp V)) (c : C) (hc : c ∈ sink.consumers_) :
    (pipeRun sink pipeInit ops).received c ++ (pipeRun sink pipeInit ops).src.values_
        = enqList ops ∧
      ((pipeRun sink pipeInit ops).src.values_ = [] →
        (pipeRun sink pipeInit ops).received c = enqList ops) := by
  obtain ⟨_, h2⟩ := pipeRun_invariant sink ops pipeInit rfl
  have h := h2 c hc
  have hinit : (pipeInit : PipeState V C).received c
      ++ (pipeInit : PipeState V C).src.values_ ++ enqList ops = enqList ops := by
    simp [pipeInit]
  rw [hinit] at h
  refine ⟨h, fun hempty => ?_⟩
  rw [hempty, List.append_nil] at h
  exact h

/-- Witness for C3: enqueue 1, 2, drain, enqueue 3, drain; consumer 5 of
    the sink has received [1, 2, 3] and the buffer is empty. -/
theorem mqm_C3_fifo_no_loss_witness :
    (pipeRun (MqmSink.mk (0 : Nat) [5, 6]) pipeInit
          [PipeOp.enq 1, PipeOp.enq 2, PipeOp.drain, PipeOp.enq 3, PipeOp.drain]).received 5
        ++ (pipeRun (MqmSink.mk (0 : Nat) [5, 6]) pipeInit
          [PipeOp.enq 1, PipeOp.enq 2, PipeOp.drain, PipeOp.enq 3, PipeOp.drain]).src.values_
      = enqList [PipeOp.enq 1, PipeOp.enq 2, PipeOp.drain, PipeOp.enq 3, PipeOp.drain] ∧
    ((pipeRun (MqmSink.mk (0 : Nat) [5, 6]) pipeInit
          [PipeOp.enq 1, PipeOp.enq 2, PipeOp.drain, PipeOp.enq 3, PipeOp.drain]).src.values_ = [] →
      (pipeRun (MqmSink.mk (0 : Nat) [5, 6]) pipeInit
          [PipeOp.enq 1, PipeOp.enq 2, PipeOp.drain, PipeOp.enq 3, PipeOp.drain]).received 5
        = enqList [PipeOp.enq 1, PipeOp.enq 2, PipeOp.drain, PipeOp.enq 3, PipeOp.drain]) :=
  mqm_C3_fifo_no_loss (MqmSink.mk 0 [5, 6])
    [PipeOp.enq 1, PipeOp.enq 2, PipeOp.drain, PipeOp.enq 3, PipeOp.drain] 5 (by decide)

/-- Pointwise update of a keyed map (std::map insert/erase at one key). -/
def updateMap [DecidableEq K] (m : K → Option A) (k : K) (a : Option A) :
    K → Option A :=
  fun q => if q = k then a else m q

@[simp] lemma updateMap_self [DecidableEq K] {A : Type} (m : K → Option A)
    (k : K) (a : Option A) : updateMap m k a k = a := by
  simp [updateMap]

lemma updateMap_ne [DecidableEq K] {A : Type} (m : K → Option A) (k : K)
    (a : Option A) (q : K) (h : q ≠ k) : updateMap m k a q = m q := by
  simp [updateMap, h]

/-- Registry state (class MqmProcessor): the sources map and the sinks map
    (one MqmActiveSink per active key, here its MqmSink plus, in
    `workerStarts`, how many times MqmActiveSink::start ran for the key).
    `events` is the observation log of consumer invocations (key, consumer,
    value), in invocation order. -/
structure MqmProcessor (K V C : Type) where
  sources_ : K → Option (MqmSource V)
  sinks_ : K → Option (MqmSink K C)
  workerStarts : K → Nat
  events : List (K × C × V)

variable [DecidableEq K] [DecidableEq C]

/-- MqmProcessor::getSource: return the existing source for the key or
    atomically insert a fresh one. -/
def MqmProcessor.getSource (p : MqmProcessor K V C) (k : K) :
    MqmSource V × MqmProcessor K V C :=
  match p.sources_ k with
  | some s => (s, p)
  | none =>
    (MqmSource.mk [] false,
      { p with sources_ := updateMap p.sources_ k (some (MqmSource.mk [] false)) })

/-- MqmProcessor::enqueue: get-or-create the key's source and push the
    value; the push's success or Stopped failure is returned to the caller
    and the (possibly unchanged) source is written back. -/
def MqmProcessor.enqueue (p : MqmProcessor K V C) (k : K) (v : V) :
    Except String Unit × MqmProcessor K V C :=
  let sp := p.getSource k
  let rs := sp.1.enqueue v
  (rs.1, { sp.2 with sources_ := updateMap sp.2.sources_ k (some rs.2) })

/-- MqmProcessor::subscribe: get-or-create the key's MqmActiveSink, append
    the consumer to its MqmSink; only when the sink was created (first
    subscribe for the key) is the source got-or-created and the worker
    started against it (workerStarts bumped). -/
def MqmProcessor.subscribe (p : MqmProcessor K V C) (k : K) (c : C) :
    MqmProcessor K V C :=
  match p.sinks_ k with
  | some sink =>
    { p with sinks_ := updateMap p.sinks_ k (some (sink.subscribe c)) }
  | none =>
    let p3 := (({ p with
        sinks_ := updateMap p.sinks_ k (some (MqmSink.mk k [c])) } :
      MqmProcessor K V C).getSource k).2
    { p3 with workerStarts := fun q =>
        if q = k then p3.workerStarts q + 1 else p3.workerStarts q }

/-- MqmProcessor::unsubscribe: removeSource (stop the key's source, wake
    the worker, erase the map entry) then removeSink (erase the entry;
    releasing the last owning reference joins the worker, whose final
    in-flight iteration drains the remaining buffer and broadcasts it to
    the key's consumers before exiting).  The joined final broadcast is the
    event block appended here. -/
def MqmProcessor.unsubscribe (p : MqmProcessor K V C) (k : K) :
    MqmProcessor K V C :=
  match p.sources_ k, p.sinks_ k with
  | some s, some sink =>
    { p with
        sources_ := updateMap p.sources_ k none,
        sinks_ := updateMap p.sinks_ k none,
        events := p.events
          ++ sink.consumers_.flatMap (fun c => s.values_.map (fun v => (k, c, v))) }
  | some _, none => { p with sources_ := updateMap p.sources_ k none }
  | none, some _ => { p with sinks_ := updateMap p.sinks_ k none }
  | none, none => p

/-- One iteration of the key's worker at registry level: it runs only while
    both the source and the sink are still reachable; it drains the queue
    (no-op while get blocks) and broadcasts the batch to the key's
    consumers, logging the invocations. -/
def MqmProcessor.workerStep (p : MqmProcessor K V C) (k : K) :
    MqmProcessor K V C :=
  match p.sources_ k, p.sinks_ k with
  | some s, some sink =>
    match s.get with
    | none => p
    | some (batch, _, s2) =>
      { p with
          sources_ := updateMap p.sources_ k (some s2),
          events := p.events
            ++ sink.consumers_.flatMap (fun c => batch.map (fun v => (k, c, v))) }
  | _, _ => p

/-- An external call into the registry, or one worker iteration. -/
inductive SysOp (K V C : Type) where
  | subscribe (k : K) (c : C)
  | unsubscribe (k : K)
  | enqueue (k : K) (v : V)
  | workerStep (k : K)
deriving DecidableEq

/-- Apply one system operation. -/
def MqmProcessor.applyOp (p : MqmProcessor K V C) : SysOp K V C → MqmProcessor K V C
  | .subscribe k c => p.subscribe k c
  | .unsubscribe k => p.unsubscribe k
  | .enqueue k v => (p.enqueue k v).2
  | .workerStep k => p.workerStep k

/-- Run a list of system operations. -/
def MqmProcessor.run (p : MqmProcessor K V C) : List (SysOp K V C) → MqmProcessor K V C
  | [] => p
  | op :: ops => (p.applyOp op).run ops

/-- A freshly constructed MqmProcessor: both maps empty, no events. -/
def mqmInit : MqmProcessor K V C :=
  { sources_ := fun _ => none, sinks_ := fun _ => none,
    workerStarts := fun _ => 0, events := [] }

lemma getSource_snd_sinks (p : MqmProcessor K V C) (k : K) :
    ((p.getSource k).2.sinks_ = p.sinks_) ∧
      ((p.getSource k).2.events = p.events) ∧
      ((p.getSource k).2.workerStarts = p.workerStarts) := by
  unfold MqmProcessor.getSource
  rcases p.sources_ k with _ | s <;> exact ⟨rfl, rfl, rfl⟩

lemma enqueue_snd_sinks (p : MqmProcessor K V C) (k : K) (v : V) :
    ((p.enqueue k v).2.sinks_ = p.sinks_) ∧
      ((p.enqueue k v).2.events = p.events) ∧
      ((p.enqueue k v).2.workerStarts = p.workerStarts) := by
  unfold MqmProcessor.enqueue
  exact getSource_snd_sinks p k

lemma unsubscribe_removed (p : MqmProcessor K V C) (k : K) :
    (p.unsubscribe k).sources_ k = none ∧ (p.unsubscribe k).sinks_ k = none := by
  unfold MqmProcessor.unsubscribe
  rcases hsrc : p.sources_ k with _ | s <;> rcases hsk : p.sinks_ k with _ | sink <;>
    simp [hsrc, hsk]

lemma updateMap_updateMap {A : Type} (m : K → Option A) (k : K) (a b : Option A) :
    updateMap (updateMap m k a) k b = updateMap m k b := by
  funext q
  by_cases h : q = k <;> simp [updateMap, h]

lemma getSource_none (p : MqmProcessor K V C) (k : K)
    (h : p.sources_ k = none) :
    p.getSource k = (MqmSource.mk [] false,
      { p with sources_ := updateMap p.sources_ k (some (MqmSource.mk [] false)) }) := by
  unfold MqmProcessor.getSource
  rw [h]

lemma getSource_some (p : MqmProcessor K V C) (k : K) (s : MqmSource V)
    (h : p.sources_ k = some s) : p.getSource k = (s, p) := by
  unfold MqmProcessor.getSource
  rw [h]

lemma enqueue_of_sources_none (p : MqmProcessor K V C) (k : K) (v : V)
    (h : p.sources_ k = none) :
    p.enqueue k v = (Except.ok (),
      { p with sources_ := updateMap p.sources_ k (some (MqmSource.mk [v] false)) }) := by
  simp only [MqmProcessor.enqueue, getSource_none p k h]
  simp [MqmSource.enqueue, updateMap_updateMap]

lemma enqueue_of_sources_some (p : MqmProcessor K V C) (k : K) (v : V)
    (s : MqmSource V) (h : p.sources_ k = some s) (hstop : s.stopped_ = false) :
    p.enqueue k v = (Except.ok (),
      { p with sources_ :=
          updateMap p.sources_ k (some (MqmSource.mk (s.values_ ++ [v]) false)) }) := by
  simp only [MqmProcessor.enqueue, getSource_some p k s h]
  simp [MqmSource.enqueue, hstop]

lemma subscribe_of_sinks_some (p : MqmProcessor K V C) (k : K) (c : C)
    (sink : MqmSink K C) (h : p.sinks_ k = some sink) :
    p.subscribe k c = { p with sinks_ := updateMap p.sinks_ k (some (sink.subscribe c)) } := by
  unfold MqmProcessor.subscribe
  rw [h]

lemma subscribe_of_sinks_none (p : MqmProcessor K V C) (k : K) (c : C)
    (h : p.sinks_ k = none) :
    (p.subscribe k c).sinks_ = updateMap p.sinks_ k (some (MqmSink.mk k [c])) ∧
      (p.subscribe k c).events = p.events ∧
      (p.subscribe k c).workerStarts k = p.workerStarts k + 1 := by
  simp only [MqmProcessor.subscribe, h]
  obtain ⟨h1, h2, h3⟩ := getSource_snd_sinks
    ({ p with sinks_ := updateMap p.sinks_ k (some (MqmSink.mk k [c])) } :
      MqmProcessor K V C) k
  exact ⟨h1, h2, by simp [h3]⟩

lemma subscribe_events (p : MqmProcessor K V C) (k : K) (c : C) :
    (p.subscribe k c).events = p.events := by
  rcases h : p.sinks_ k with _ | sink
  · exact (subscribe_of_sinks_none p k c h).2.1
  · rw [subscribe_of_sinks_some p k c sink h]

lemma subscribe_sources_of_some (p : MqmProcessor K V C) (k : K) (c : C)
    (s : MqmSource V) (hk : p.sinks_ k = none) (hs : p.sources_ k = some s) :
    (p.subscribe k c).sources_ = p.sources_ := by
  simp only [MqmProcessor.subscribe, hk]
  rw [getSource_some ({ p with sinks_ := updateMap p.sinks_ k (some (MqmSink.mk k [c])) } :
    MqmProcessor K V C) k s hs]

/-- C9: an MqmActiveSink (dispatcher) is created by subscribe exactly when
    the subscribe is the first for the key (getSink's created flag): the
    first subscribe installs the sink holding just this consumer and starts
    the key's worker once; a subscribe to an already-active key only
    appends the consumer, starting no second worker; enqueue never touches
    the sinks map, never starts a worker and delivers nothing — with no
    subscriber the value merely accumulates at the back of the key's
    queue. -/
theorem mqm_C9_dispatcher_only_on_first_subscribe (p : MqmProcessor K V C)
    (k : K) (c : C) (v : V) :
    (p.sinks_ k = none →
      (p.subscribe k c).sinks_ k = some (MqmSink.mk k [c]) ∧
        (p.subscribe k c).workerStarts k = p.workerStarts k + 1) ∧
    (∀ sink, p.sinks_ k = some sink →
      (p.subscribe k c).sinks_ k = some (sink.subscribe c) ∧
        (p.subscribe k c).workerStarts = p.workerStarts) ∧
    ((p.enqueue k v).2.sinks_ = p.sinks_ ∧
      (p.enqueue k v).2.events = p.events ∧
      (p.enqueue k v).2.workerStarts = p.workerStarts) ∧
    (p.sources_ k = none →
      (p.enqueue k v).2.sources_ k = some (MqmSource.mk [v] false)) ∧
    (∀ s, p.sources_ k = some s → s.stopped_ = false →
      (p.enqueue k v).2.sources_ k
        = some (MqmSource.mk (s.values_ ++ [v]) false)) := by
  refine ⟨?_, ?_, ?_, ?_, ?_⟩
  · intro h
    obtain ⟨h1, _, h3⟩ := subscribe_of_sinks_none p k c h
    exact ⟨by rw [h1]; simp, h3⟩
  · intro sink h
    rw [subscribe_of_sinks_some p k c sink h]
    simp
  · exact enqueue_snd_sinks p k v
  · intro h
    rw [enqueue_of_sources_none p k v h]
    simp
  · intro s h hstop
    rw [enqueue_of_sources_some p k v s h hstop]
    simp

/-- Witness for C9: first subscribe creates the sink and starts the worker;
    second subscribe appends without a second start; enqueue on a fresh key
    touches no sink and buffers the value. -/
theorem mqm_C9_dispatcher_only_on_first_subscribe_witness :
    (((mqmInit : MqmProcessor Nat Nat Nat).subscribe 0 5).sinks_ 0
        = some (MqmSink.mk 0 [5]) ∧
      ((mqmInit : MqmProcessor Nat Nat Nat).subscribe 0 5).workerStarts 0
        = (mqmInit : MqmProcessor Nat Nat Nat).workerStarts 0 + 1) ∧
    ((((mqmInit : MqmProcessor Nat Nat Nat).subscribe 0 5).subscribe 0 6).sinks_ 0
        = some ((MqmSink.mk 0 [5]).subscribe 6) ∧
      (((mqmInit : MqmProcessor Nat Nat Nat).subscribe 0 5).subscribe 0 6).workerStarts
        = ((mqmInit : MqmProcessor Nat Nat Nat).subscribe 0 5).workerStarts) ∧
    (((mqmInit : MqmProcessor Nat Nat Nat).enqueue 0 9).2.sources_ 0
        = some (MqmSource.mk [9] false)) :=
  ⟨(mqm_C9_dispatcher_only_on_first_subscribe mqmInit 0 5 9).1 rfl,
    (mqm_C9_dispatcher_only_on_first_subscribe
        ((mqmInit : MqmProcessor Nat Nat Nat).subscribe 0 5) 0 6 9).2.1
      (MqmSink.mk 0 [5]) (by decide),
    (mqm_C9_dispatcher_only_on_first_subscribe mqmInit 0 5 9).2.2.2.1 rfl⟩

lemma subscribe_then_worker_delivers (q : MqmProcessor K V C) (k : K) (v : V)
    (c2 : C) (hsink : q.sinks_ k = none)
    (hsrc : q.sources_ k = some (MqmSource.mk [v] false)) :
    (k, c2, v) ∈ ((q.subscribe k c2).workerStep k).events := by
  obtain ⟨hsinks3, _, _⟩ := subscribe_of_sinks_none q k c2 hsink
  have hsrc3 : (q.subscribe k c2).sources_ = q.sources_ :=
    subscribe_sources_of_some q k c2 (MqmSource.mk [v] false) hsink hsrc
  unfold MqmProcessor.workerStep
  rw [hsrc3, hsrc, hsinks3, updateMap_self]
  simp [MqmSource.get]

/-- C1 counterexample: subscribe key 0, unsubscribe it, and — with no
    intervening subscribe — enqueue (0, 5).  The claim says this fails with
    Stopped and that no consumer ever receives 5; in fact the enqueue
    succeeds (getSource re-creates a fresh, unstopped queue, removeSource
    having erased the stopped one), and after a later fresh subscribe the
    new worker delivers 5 to the new consumer 11. -/
theorem mqm_C1_counterexample :
    ((((mqmInit : MqmProcessor Nat Nat Nat).subscribe 0 10).unsubscribe 0).enqueue 0 5).1
        = Except.ok () ∧
      (0, 11, 5) ∈ (((((((mqmInit : MqmProcessor Nat Nat Nat).subscribe 0 10).unsubscribe 0).enqueue 0 5).2).subscribe 0 11).workerStep 0).events :=
  ⟨rfl, by decide⟩

/-- C1 amended: after unsubscribe(K) and with no intervening subscribe, a
    subsequent enqueue(K, v) does not fail with Stopped: it succeeds,
    re-creating a fresh unstopped queue for K that buffers v; the enqueue
    itself delivers nothing, but v is not lost — a later subscribe(K, c2)
    starts a new worker whose first drain delivers v to c2. -/
theorem mqm_C1_amended_enqueue_after_unsubscribe (p : MqmProcessor K V C)
    (k : K) (v : V) (c2 : C) :
    (((p.unsubscribe k).enqueue k v).1 = Except.ok ()) ∧
      ((p.unsubscribe k).enqueue k v).2.sources_ k
        = some (MqmSource.mk [v] false) ∧
      ((p.unsubscribe k).enqueue k v).2.events = (p.unsubscribe k).events ∧
      (k, c2, v) ∈
        (((((p.unsubscribe k).enqueue k v).2.subscribe k c2).workerStep k)).events := by
  obtain ⟨hq1, hq2⟩ := unsubscribe_removed p k
  have henq := enqueue_of_sources_none (p.unsubscribe k) k v hq1
  refine ⟨by rw [henq], by rw [henq]; simp, by rw [henq], ?_⟩
  apply subscribe_then_worker_delivers
  · rw [henq]
    exact hq2
  · rw [henq]
    simp

lemma subscribe_sinks_ne (p : MqmProcessor K V C) (k1 : K) (c1 : C) (q : K)
    (h : q ≠ k1) : (p.subscribe k1 c1).sinks_ q = p.sinks_ q := by
  rcases hsk : p.sinks_ k1 with _ | sink
  · rw [(subscribe_of_sinks_none p k1 c1 hsk).1]
    exact updateMap_ne _ _ _ _ h
  · rw [subscribe_of_sinks_some p k1 c1 sink hsk]
    exact updateMap_ne _ _ _ _ h

lemma events_flatMap_not_mem (k1 k0 : K) (c : C) (cs : List C) (vs : List V)
    (h : k1 = k0 → c ∉ cs) :
    ∀ v, (k0, c, v) ∉ cs.flatMap (fun c2 => vs.map (fun v2 => (k1, c2, v2))) := by
  intro v hv
  simp only [List.mem_flatMap, List.mem_map, Prod.mk.injEq] at hv
  obtain ⟨c2, hc2, v2, _, hk, hcc, _⟩ := hv
  exact h hk (hcc ▸ hc2)

lemma applyOp_clean (p : MqmProcessor K V C) (op : SysOp K V C) (k0 : K) (c : C)
    (hc : ∀ sink, p.sinks_ k0 = some sink → c ∉ sink.consumers_)
    (hop : op ≠ SysOp.subscribe k0 c) :
    (∃ e0, (p.applyOp op).events = p.events ++ e0 ∧ ∀ v : V, (k0, c, v) ∉ e0) ∧
    (∀ sink, (p.applyOp op).sinks_ k0 = some sink → c ∉ sink.consumers_) := by
  cases op with
  | subscribe k1 c1 =>
    constructor
    · exact ⟨[], by simp [MqmProcessor.applyOp, subscribe_events], fun v => by simp⟩
    · by_cases hk : k0 = k1
      · subst hk
        have hc1 : c1 ≠ c := by
          intro heq
          exact hop (by rw [heq])
        rcases hsk : p.sinks_ k0 with _ | sink
        · intro sink2 hsink2
          simp only [MqmProcessor.applyOp] at hsink2
          rw [(subscribe_of_sinks_none p k0 c1 hsk).1, updateMap_self] at hsink2
          injection hsink2 with hsink2
          rw [← hsink2]
          simp only [List.mem_singleton]
          intro heq
          exact hc1 heq.symm
        · intro sink2 hsink2
          simp only [MqmProcessor.applyOp,
            subscribe_of_sinks_some p k0 c1 sink hsk, updateMap_self] at hsink2
          injection hsink2 with hsink2
          rw [← hsink2]
          simp only [MqmSink.subscribe, List.mem_append, List.mem_singleton]
          rintro (hmem | heq)
          · exact hc sink hsk hmem
          · exact hc1 heq.symm
      · intro sink2 hsink2
        simp only [MqmProcessor.applyOp] at hsink2
        rw [subscribe_sinks_ne p k1 c1 k0 hk] at hsink2
        exact hc sink2 hsink2
  | unsubscribe k1 =>
    rcases hsrc : p.sources_ k1 with _ | s <;>
      rcases hsk1 : p.sinks_ k1 with _ | sink <;>
        simp only [MqmProcessor.applyOp, MqmProcessor.unsubscribe, hsrc, hsk1]
    · exact ⟨⟨[], by simp, fun v => by simp⟩, hc⟩
    · refine ⟨⟨[], by simp, fun v => by simp⟩, fun sink2 hsink2 => ?_⟩
      by_cases hk : k0 = k1
      · subst hk
        rw [updateMap_self] at hsink2
        exact Option.noConfusion hsink2
      · rw [updateMap_ne _ _ _ _ hk] at hsink2
        exact hc sink2 hsink2
    · exact ⟨⟨[], by simp, fun v => by simp⟩, hc⟩
    · refine ⟨⟨sink.consumers_.flatMap (fun c2 => s.values_.map (fun v2 => (k1, c2, v2))),
        rfl, ?_⟩, fun sink2 hsink2 => ?_⟩
      · refine events_flatMap_not_mem k1 k0 c sink.consumers_ s.values_ ?_
        intro hk
        subst hk
        exact hc sink hsk1
      · by_cases hk : k0 = k1
        · subst hk
          rw [updateMap_self] at hsink2
          exact Option.noConfusion hsink2
        · rw [updateMap_ne _ _ _ _ hk] at hsink2
          exact hc sink2 hsink2
  | enqueue k1 v1 =>
    obtain ⟨h1, h2, _⟩ := enqueue_snd_sinks p k1 v1
    refine ⟨⟨[], by simp [MqmProcessor.applyOp, h2], fun v => by simp⟩,
      fun sink2 hsink2 => ?_⟩
    simp only [MqmProcessor.applyOp] at hsink2
    rw [congrFun h1 k0] at hsink2
    exact hc sink2 hsink2
  | workerStep k1 =>
    rcases hsrc : p.sources_ k1 with _ | s <;>
      rcases hsk1 : p.sinks_ k1 with _ | sink <;>
        simp only [MqmProcessor.applyOp, MqmProcessor.workerStep, hsrc, hsk1]
    · exact ⟨⟨[], by simp, fun v => by simp⟩, hc⟩
    · exact ⟨⟨[], by simp, fun v => by simp⟩, hc⟩
    · exact ⟨⟨[], by simp, fun v => by simp⟩, hc⟩
    · rcases hget : s.get with _ | ⟨batch, flag, s2⟩ <;> simp only [hget]
      · exact ⟨⟨[], by simp, fun v => by simp⟩, hc⟩
      · refine ⟨⟨sink.consumers_.flatMap (fun c2 => batch.map (fun v2 => (k1, c2, v2))),
          rfl, ?_⟩, hc⟩
        refine events_flatMap_not_mem k1 k0 c sink.consumers_ batch ?_
        intro hk
        subst hk
        exact hc sink hsk1

lemma run_clean (k0 : K) (c : C) :
    ∀ (ops : List (SysOp K V C)) (p : MqmProcessor K V C),
      (∀ sink, p.sinks_ k0 = some sink → c ∉ sink.consumers_) →
      SysOp.subscribe k0 c ∉ ops →
      ∃ rest, (p.run ops).events = p.events ++ rest ∧
        (∀ v, (k0, c, v) ∉ rest) ∧
        (∀ sink, (p.run ops).sinks_ k0 = some sink → c ∉ sink.consumers_) := by
  intro ops
  induction ops with
  | nil => intro p hc _; exact ⟨[], by simp [MqmProcessor.run], fun v => by simp, hc⟩
  | cons op ops ih =>
    intro p hc hops
    have hop : op ≠ SysOp.subscribe k0 c := fun heq => hops (heq ▸ List.mem_cons_self op ops)
    have hops2 : SysOp.subscribe k0 c ∉ ops := fun hmem => hops (List.mem_cons_of_mem op hmem)
    obtain ⟨⟨e0, he0, he0clean⟩, hc2⟩ := applyOp_clean p op k0 c hc hop
    obtain ⟨rest2, hrest2, hrest2clean, hc3⟩ := ih (p.applyOp op) hc2 hops2
    refine ⟨e0 ++ rest2, ?_, ?_, hc3⟩
    · rw [MqmProcessor.run, hrest2, he0, List.append_assoc]
    · intro v hv
      rcases List.mem_append.mp hv with hv | hv
      · exact he0clean v hv
      · exact hrest2clean v hv

/-- C8: tearing down key K's active pipeline removes both its queue and its
    dispatcher (the removal joining the worker, whose final in-flight
    iteration is the event block unsubscribe itself appends before
    returning); every event logged by any later operation sequence that
    does not re-subscribe consumer c to K is a non-(K, c) event — after
    unsubscribe returns, a consumer subscribed to K is never invoked
    again. -/
theorem mqm_C8_unsubscribe_quiesces (p : MqmProcessor K V C) (k : K) (c : C)
    (sink0 : MqmSink K C) (ops : List (SysOp K V C))
    (hs : p.sinks_ k = some sink0) (hc : c ∈ sink0.consumers_)
    (hops : SysOp.subscribe k c ∉ ops) :
    (p.unsubscribe k).sources_ k = none ∧ (p.unsubscribe k).sinks_ k = none ∧
      ∃ rest, ((p.unsubscribe k).run ops).events = (p.unsubscribe k).events ++ rest ∧
        ∀ v, (k, c, v) ∉ rest := by
  obtain ⟨h1, h2⟩ := unsubscribe_removed p k
  refine ⟨h1, h2, ?_⟩
  have hcq : ∀ sink, (p.unsubscribe k).sinks_ k = some sink → c ∉ sink.consumers_ := by
    intro sink hsink
    rw [h2] at hsink
    exact Option.noConfusion hsink
  obtain ⟨rest, hrest, hclean, _⟩ := run_clean k c ops (p.unsubscribe k) hcq hops
  exact ⟨rest, hrest, hclean⟩

/-- Witness for C8: consumer 5 subscribed to key 0; after unsubscribe, a
    run with an enqueue, a fresh subscribe of consumer 6 and a worker step
    logs no event for consumer 5 on key 0. -/
theorem mqm_C8_unsubscribe_quiesces_witness :
    ((((mqmInit : MqmProcessor Nat Nat Nat).subscribe 0 5).unsubscribe 0).sources_ 0 = none ∧
      (((mqmInit : MqmProcessor Nat Nat Nat).subscribe 0 5).unsubscribe 0).sinks_ 0 = none ∧
      ∃ rest, (((((mqmInit : MqmProcessor Nat Nat Nat).subscribe 0 5).unsubscribe 0)).run
            [SysOp.enqueue 0 1, SysOp.subscribe 0 6, SysOp.workerStep 0]).events
          = ((((mqmInit : MqmProcessor Nat Nat Nat).subscribe 0 5).unsubscribe 0)).events ++ rest ∧
          ∀ v, (0, 5, v) ∉ rest) :=
  mqm_C8_unsubscribe_quiesces ((mqmInit : MqmProcessor Nat Nat Nat).subscribe 0 5)
    0 5 (MqmSink.mk 0 [5]) [SysOp.enqueue 0 1, SysOp.subscribe 0 6, SysOp.workerStep 0]
    (by decide) (by decide) (by decide)

end MqmSpec
